import Mathlib

/-!
Shallow embedding of the orchestration logic of `filestore_manager.py`
(class `FileStoreManager`) together with the constants it imports from
`config.py`, from the gemini-filestore-manager repository.

Effectful vendor calls are modelled by explicit environments: an operation
run under the retry wrapper is a function from the 0-based invocation index
to an `Except` outcome; the per-file upload pipeline outcome is a `FileEnv`
record; the indexing poll reads the polled document state (as a string, the
`str(state)` the code compares) per poll index.  `time.sleep` is not
performed; the requested sleep durations are recorded in traces.  Python
exceptions are modelled with `Except`, exception messages with `String`.
-/

/-- config.py line 98: `MAX_RETRIES = 3`. -/
def MAX_RETRIES : Nat := 3

/-- config.py line 99: `RETRY_DELAY = 2` (seconds). -/
def RETRY_DELAY : Nat := 2

/-- config.py line 108: `MAX_FILE_SIZE = 100 * 1024 * 1024` (bytes). -/
def MAX_FILE_SIZE : Nat := 100 * 1024 * 1024

/-- Observable trace of a run of `FileStoreManager._retry_operation`:
the final outcome (returned value or re-raised error), the number of
invocations of the wrapped operation, and the list of sleep durations
requested between consecutive attempts, in order. -/
structure RetryTrace (A : Type) where
  result : Except String A
  calls : Nat
  sleeps : List Nat

/-- filestore_manager.py lines 97-107, `_retry_operation`: the loop
`for attempt in range(MAX_RETRIES)` starting from a given attempt index.
`op attempt` is the outcome of the attempt-th invocation of the wrapped
operation.  On success the value is returned; on failure, if this is not
the last attempt the code sleeps `RETRY_DELAY * (2 ** attempt)` and
retries, otherwise it re-raises the error. -/
def retryAux {A : Type} (op : Nat → Except String A) (attempt : Nat) : RetryTrace A :=
  match op attempt with
  | Except.ok v => ⟨Except.ok v, attempt + 1, []⟩
  | Except.error e =>
    if h : attempt < MAX_RETRIES - 1 then
      let r := retryAux op (attempt + 1)
      ⟨r.result, r.calls, RETRY_DELAY * 2 ^ attempt :: r.sleeps⟩
    else
      ⟨Except.error e, attempt + 1, []⟩
termination_by MAX_RETRIES - attempt
decreasing_by omega

/-- `FileStoreManager._retry_operation(operation)`: the retry loop started
at attempt 0. -/
def retry_operation {A : Type} (op : Nat → Except String A) : RetryTrace A :=
  retryAux op 0

/-- filestore_manager.py lines 159-178, `delete_store`: runs the vendor
delete call (`_delete`, which returns `True` on success) under
`_retry_operation`; if the retries end in an error the error is logged and
`False` is returned instead of propagating.  `del_` gives the per-invocation
outcome of the vendor `delete_corpus` call. -/
def delete_store (del_ : Nat → Except String Unit) : Bool :=
  match (retry_operation fun i => Except.map (fun _ => true) (del_ i)).result with
  | Except.ok b => b
  | Except.error _ => false

lemma retryAux_ok {A : Type} (op : Nat → Except String A) (a : Nat) (v : A)
    (h : op a = Except.ok v) : retryAux op a = ⟨Except.ok v, a + 1, []⟩ := by
  rw [retryAux.eq_def, h]

lemma retryAux_error_step {A : Type} (op : Nat → Except String A) (a : Nat) (e : String)
    (h : op a = Except.error e) (ha : a < MAX_RETRIES - 1) :
    retryAux op a =
      ⟨(retryAux op (a + 1)).result, (retryAux op (a + 1)).calls,
        RETRY_DELAY * 2 ^ a :: (retryAux op (a + 1)).sleeps⟩ := by
  rw [retryAux.eq_def, h]
  simp [ha]

lemma retryAux_error_last {A : Type} (op : Nat → Except String A) (a : Nat) (e : String)
    (h : op a = Except.error e) (ha : ¬ a < MAX_RETRIES - 1) :
    retryAux op a = ⟨Except.error e, a + 1, []⟩ := by
  rw [retryAux.eq_def, h]
  simp [ha]

/-- Helper: a run that fails on the first `k` invocations and succeeds on
invocation `k` (0-based) returns the success value after `k + 1` calls,
having requested the exponential-backoff sleeps for attempts `0, ..., k-1`. -/
lemma retry_success_aux {A : Type} (op : Nat → Except String A) (k : Nat) (v : A)
    (hk : k < MAX_RETRIES)
    (hfail : ∀ i, i < k → ∃ e, op i = Except.error e)
    (hsucc : op k = Except.ok v) :
    retry_operation op =
      ⟨Except.ok v, k + 1, (List.range k).map fun i => RETRY_DELAY * 2 ^ i⟩ := by
  have hk3 : k < 3 := hk
  interval_cases k
  · rw [retry_operation, retryAux_ok op 0 v hsucc]
    rfl
  · obtain ⟨e0, h0⟩ := hfail 0 (by decide)
    rw [retry_operation, retryAux_error_step op 0 e0 h0 (by decide),
      retryAux_ok op 1 v hsucc]
    rfl
  · obtain ⟨e0, h0⟩ := hfail 0 (by decide)
    obtain ⟨e1, h1⟩ := hfail 1 (by decide)
    rw [retry_operation, retryAux_error_step op 0 e0 h0 (by decide),
      retryAux_error_step op 1 e1 h1 (by decide), retryAux_ok op 2 v hsucc]
    rfl

/-- Helper: a run that fails on every one of the `MAX_RETRIES` invocations
makes exactly `MAX_RETRIES` calls and re-raises the outcome of the final
attempt. -/
lemma retry_exhaust_aux {A : Type} (op : Nat → Except String A)
    (hfail : ∀ i, i < MAX_RETRIES → ∃ e, op i = Except.error e) :
    (retry_operation op).calls = MAX_RETRIES ∧
    (retry_operation op).result = op (MAX_RETRIES - 1) := by
  obtain ⟨e0, h0⟩ := hfail 0 (by decide)
  obtain ⟨e1, h1⟩ := hfail 1 (by decide)
  obtain ⟨e2, h2⟩ := hfail 2 (by decide)
  rw [retry_operation, retryAux_error_step op 0 e0 h0 (by decide),
    retryAux_error_step op 1 e1 h1 (by decide),
    retryAux_error_last op 2 e2 h2 (by decide)]
  exact ⟨rfl, by rw [show MAX_RETRIES - 1 = 2 from rfl, h2]⟩

/-- C1: for every operation and every k with k < MAX_RETRIES, if the
operation fails on its first k invocations and succeeds on invocation k+1,
then `_retry_operation` returns that success value, invokes the operation
exactly k+1 times, and the sleeps between consecutive attempts are the
strictly increasing delays `RETRY_DELAY * 2^attempt` for attempts
`0, ..., k-1`. -/
theorem retry_success_spec {A : Type} (op : Nat → Except String A) (k : Nat) (v : A)
    (hk : k < MAX_RETRIES)
    (hfail : ∀ i, i < k → ∃ e, op i = Except.error e)
    (hsucc : op k = Except.ok v) :
    retry_operation op =
      ⟨Except.ok v, k + 1, (List.range k).map fun i => RETRY_DELAY * 2 ^ i⟩ ∧
    List.Chain' (fun a b => a < b) ((List.range k).map fun i => RETRY_DELAY * 2 ^ i) := by
  refine ⟨retry_success_aux op k v hk hfail hsucc, ?_⟩
  have hk3 : k < 3 := hk
  interval_cases k
  · rw [show (List.range 0).map (fun i => RETRY_DELAY * 2 ^ i) = [] from rfl]
    exact List.chain'_nil
  · rw [show (List.range 1).map (fun i => RETRY_DELAY * 2 ^ i) = [2] from rfl]
    exact List.chain'_singleton 2
  · rw [show (List.range 2).map (fun i => RETRY_DELAY * 2 ^ i) = [2, 4] from rfl]
    norm_num [List.chain'_cons]

/-- Concrete run of C1: an operation failing once then succeeding with 7. -/
def opC1 : Nat → Except String Nat := fun i =>
  if i = 0 then Except.error "boom" else Except.ok 7

theorem retry_success_witness :
    retry_operation opC1 =
      ⟨Except.ok 7, 1 + 1, (List.range 1).map fun i => RETRY_DELAY * 2 ^ i⟩ ∧
    List.Chain' (fun a b => a < b) ((List.range 1).map fun i => RETRY_DELAY * 2 ^ i) :=
  retry_success_spec opC1 1 7 (by decide)
    (by
      intro i hi
      have h0 : i = 0 := by omega
      exact ⟨"boom", by rw [h0]; rfl⟩)
    rfl

/-- C2: an operation failing on all invocations is invoked exactly
MAX_RETRIES times and the error from the final attempt is re-raised to the
caller. -/
theorem retry_exhaustion_spec {A : Type} (op : Nat → Except String A)
    (hfail : ∀ i, i < MAX_RETRIES → ∃ e, op i = Except.error e) :
    (retry_operation op).calls = MAX_RETRIES ∧
    (retry_operation op).result = op (MAX_RETRIES - 1) :=
  retry_exhaust_aux op hfail

/-- Concrete run of C2: an operation that fails every time with a
distinct message per attempt. -/
def opC2 : Nat → Except String Nat := fun i => Except.error (toString i)

theorem retry_exhaustion_witness :
    (retry_operation opC2).calls = MAX_RETRIES ∧
    (retry_operation opC2).result = opC2 (MAX_RETRIES - 1) :=
  retry_exhaustion_spec opC2 (fun i _ => ⟨toString i, rfl⟩)

/-- C7: `delete_store` returns a boolean: `true` when the vendor delete
call eventually succeeds within the retry budget, and `false` (rather than
propagating an exception) when all retries are exhausted; it is a total
boolean-valued function, so it never raises. -/
theorem delete_store_spec (del_ : Nat → Except String Unit) :
    (∀ k, k < MAX_RETRIES → (∀ i, i < k → ∃ e, del_ i = Except.error e) →
      del_ k = Except.ok () → delete_store del_ = true) ∧
    ((∀ i, i < MAX_RETRIES → ∃ e, del_ i = Except.error e) →
      delete_store del_ = false) := by
  constructor
  · intro k hk hfail hsucc
    have h := retry_success_aux (fun i => Except.map (fun _ => true) (del_ i)) k true hk
      (fun i hi => by
        obtain ⟨e, he⟩ := hfail i hi
        exact ⟨e, by simp [he, Except.map]⟩)
      (by simp [hsucc, Except.map])
    rw [delete_store, h]
  · intro hfail
    have h := retry_exhaust_aux (fun i => Except.map (fun _ => true) (del_ i))
      (fun i hi => by
        obtain ⟨e, he⟩ := hfail i hi
        exact ⟨e, by simp [he, Except.map]⟩)
    obtain ⟨e, he⟩ := hfail (MAX_RETRIES - 1) (by decide)
    rw [delete_store, h.2]
    simp [he, Except.map]

/-- Concrete delete calls: one succeeding on the second attempt, one
always failing. -/
def delOkC7 : Nat → Except String Unit := fun i =>
  if i = 0 then Except.error "transient" else Except.ok ()

def delBadC7 : Nat → Except String Unit := fun _ => Except.error "gone"

theorem delete_store_witness :
    delete_store delOkC7 = true ∧ delete_store delBadC7 = false :=
  ⟨(delete_store_spec delOkC7).1 1 (by decide)
      (by
        intro i hi
        have h0 : i = 0 := by omega
        exact ⟨"transient", by rw [h0]; rfl⟩)
      rfl,
    (delete_store_spec delBadC7).2 (fun i _ => ⟨"gone", rfl⟩)⟩

/-- filestore_manager.py line 293: the document states accepted as active
by `_wait_for_indexing` (compared against `str(state)`). -/
def isActiveState (s : String) : Bool := s == "STATE_ACTIVE" || s == "ACTIVE"

/-- Poll loop of `_wait_for_indexing`, by remaining poll budget and current
poll index: if the state at this poll is active, return `True`; otherwise
sleep 5 seconds and poll again; with the budget exhausted, raise the
TimeoutError (the `Except.error`). -/
def waitPoll (states : Nat → String) : Nat → Nat → Except Unit Bool
  | 0, _ => Except.error ()
  | fuel + 1, i =>
    if isActiveState (states i) then Except.ok true
    else waitPoll states fuel (i + 1)

/-- filestore_manager.py lines 285-298, `_wait_for_indexing` with its
default timeout budget passed explicitly (300 seconds).  Time is modelled
discretely: each loop iteration costs its 5-second sleep and the
`get_document` call is instantaneous, so poll `i` happens at elapsed time
`5 * i` and the guard `while time.time() - start_time < timeout` admits
exactly `⌈timeout / 5⌉` polls.  `states i` is `str(doc.state)` at poll `i`. -/
def wait_for_indexing (states : Nat → String) (timeout : Nat) : Except Unit Bool :=
  waitPoll states ((timeout + 4) / 5) 0

/-- filestore_manager.py lines 24-38: the `FileInfo` dataclass.  The
free-form metadata mapping is an association list; the `__post_init__`
size probe is an effect of construction and `size_kb` holds its result. -/
structure FileInfo where
  path : String
  metadata : List (String × String)
  size_kb : Nat
  status : String
  error_msg : String
deriving DecidableEq, Inhabited

/-- filestore_manager.py lines 41-49: the `UploadProgress` dataclass. -/
structure UploadProgress where
  total_files : Nat
  completed_files : Nat
  failed_files : Nat
  current_file : String
  total_tokens : Nat
  is_cancelled : Bool
deriving DecidableEq, Inhabited

/-- filestore_manager.py lines 51-55: the `percent` property (Python float
division modelled over the rationals). -/
def UploadProgress.percent (p : UploadProgress) : ℚ :=
  if p.total_files = 0 then 0
  else ((p.completed_files : ℚ) / (p.total_files : ℚ)) * 100

/-- Environment describing the effectful outcomes seen while `upload_files`
processes one file: the size returned by `Path(path).stat().st_size`, the
combined outcome of `_upload_single_file` and `_add_file_to_corpus` (each
already wrapped in `_retry_operation`; the `Except.error` is an exception
escaping the retries), and the document states seen by `_wait_for_indexing`
per poll index. -/
structure FileEnv where
  statSize : Nat
  uploadResult : Except String Unit
  indexStates : Nat → String
deriving Inhabited

/-- Outcome of the `try` body of the `upload_files` loop for one file. -/
inductive FileResult where
  | ok : FileResult
  | failed : String → FileResult
deriving DecidableEq

/-- Message of the ValueError of filestore_manager.py line 213
(`MAX_FILE_SIZE // 1024 // 1024` is 100). -/
def sizeErrorMsg : String :=
  "File exceeds maximum size of " ++ toString (MAX_FILE_SIZE / 1024 / 1024) ++ "MB"

/-- Message of the TimeoutError of filestore_manager.py line 298 (the
document name interpolated there is not tracked by the model). -/
def timeoutErrorMsg : String := "Indexing timed out"

/-- The `try` body of the `upload_files` loop (filestore_manager.py lines
206-222): size-ceiling check, upload, add to corpus, wait for indexing.
`FileResult.failed msg` is the exception caught by the `except` branch,
with `str(e) = msg`. -/
def fileAttempt (env : FileEnv) : FileResult :=
  if MAX_FILE_SIZE < env.statSize then FileResult.failed sizeErrorMsg
  else
    match env.uploadResult with
    | Except.error e => FileResult.failed e
    | Except.ok _ =>
      match wait_for_indexing env.indexStates 300 with
      | Except.error _ => FileResult.failed timeoutErrorMsg
      | Except.ok _ => FileResult.ok

/-- Whether the pipeline for one file runs to completion. -/
def fileSucceeds (env : FileEnv) : Bool :=
  match fileAttempt env with
  | FileResult.ok => true
  | FileResult.failed _ => false

/-- `Path(path).name`: the final path component. -/
def pathName (p : String) : String := (p.splitOn "/").getLastD p

/-- The `FileInfo` record as left by one iteration of the `upload_files`
loop: status "completed" on success, status "error" plus the caught
exception text on failure. -/
def fileOutcome (env : FileEnv) (fi : FileInfo) : FileInfo :=
  match fileAttempt env with
  | FileResult.ok => { fi with status := "completed" }
  | FileResult.failed msg => { fi with status := "error", error_msg := msg }

/-- Result of one iteration of the `upload_files` loop: the updated
`FileInfo` and progress record, the successive values taken by
`file_info.status` during the iteration (initial value included), and the
successive values of the progress record at each of its mutations, in
program order. -/
structure StepOut where
  file : FileInfo
  prog : UploadProgress
  strace : List String
  ptrace : List UploadProgress

/-- Loop body of `upload_files` (filestore_manager.py lines 202-232), minus
the callback invocation at the top of the loop (recorded by
`uploadFilesGo`): set `progress.current_file`, set the status to
"uploading", run the pipeline, then either mark completion (status,
completed_files, total_tokens) or record the error (status, error_msg,
failed_files). -/
def processFile (env : FileEnv) (fi : FileInfo) (p : UploadProgress) : StepOut :=
  let p1 := { p with current_file := pathName fi.path }
  match fileAttempt env with
  | FileResult.ok =>
    let p2 := { p1 with completed_files := p1.completed_files + 1 }
    let p3 := { p2 with total_tokens := p2.total_tokens + fi.size_kb }
    ⟨{ fi with status := "completed" }, p3,
      [fi.status, "uploading", "completed"], [p1, p2, p3]⟩
  | FileResult.failed msg =>
    let p2 := { p1 with failed_files := p1.failed_files + 1 }
    ⟨{ fi with status := "error", error_msg := msg }, p2,
      [fi.status, "uploading", "error"], [p1, p2]⟩

/-- Observable run of `upload_files`: the final per-file records, the
returned progress record, the progress states observed by the callback
(one at the top of each loop iteration plus the final one of lines
234-236), the per-file status histories, and every progress state in
program order. -/
structure UploadRun where
  files : List FileInfo
  final : UploadProgress
  snaps : List UploadProgress
  straces : List (List String)
  ptrace : List UploadProgress

/-- The `for file_info in files` loop of `upload_files` (filestore_manager.py
lines 202-238) over the remaining (file, environment) pairs, threading the
progress record; at the end `current_file` is cleared and the callback is
invoked once more. -/
def uploadFilesGo : List (FileInfo × FileEnv) → UploadProgress → UploadRun
  | [], p =>
    let pf := { p with current_file := "" }
    ⟨[], pf, [pf], [], [pf]⟩
  | (fi, env) :: rest, p =>
    let s := processFile env fi p
    let r := uploadFilesGo rest s.prog
    ⟨s.file :: r.files, r.final, p :: r.snaps, s.strace :: r.straces,
      (p :: s.ptrace) ++ r.ptrace⟩

/-- `FileStoreManager.upload_files`: the loop started on
`UploadProgress(total_files=len(files))`. -/
def upload_files (pairs : List (FileInfo × FileEnv)) : UploadRun :=
  uploadFilesGo pairs ⟨pairs.length, 0, 0, "", 0, false⟩

/-- One observed assignment to `FileInfo.status` moves forward along
pending → uploading → (completed | error). -/
def statusAdvance (a b : String) : Prop :=
  (a = "pending" ∧ b = "uploading") ∨
  (a = "uploading" ∧ (b = "completed" ∨ b = "error"))

lemma processFile_file (env : FileEnv) (fi : FileInfo) (p : UploadProgress) :
    (processFile env fi p).file = fileOutcome env fi := by
  cases h : fileAttempt env <;> simp [processFile, fileOutcome, h]

lemma fileOutcome_status (env : FileEnv) (fi : FileInfo) :
    (fileOutcome env fi).status = if fileSucceeds env then "completed" else "error" := by
  cases h : fileAttempt env <;> simp [fileOutcome, fileSucceeds, h]

lemma processFile_total (env : FileEnv) (fi : FileInfo) (p : UploadProgress) :
    (processFile env fi p).prog.total_files = p.total_files := by
  cases h : fileAttempt env <;> simp [processFile, h]

lemma processFile_counts (env : FileEnv) (fi : FileInfo) (p : UploadProgress) :
    (processFile env fi p).prog.completed_files
      = p.completed_files + (if fileSucceeds env then 1 else 0) ∧
    (processFile env fi p).prog.failed_files
      = p.failed_files + (if fileSucceeds env then 0 else 1) := by
  cases h : fileAttempt env <;> simp [processFile, fileSucceeds, h]

lemma processFile_sum (env : FileEnv) (fi : FileInfo) (p : UploadProgress) :
    (processFile env fi p).prog.completed_files + (processFile env fi p).prog.failed_files
      = p.completed_files + p.failed_files + 1 := by
  have h := processFile_counts env fi p
  cases hs : fileSucceeds env <;> simp [hs] at h <;> omega

lemma processFile_ptrace (env : FileEnv) (fi : FileInfo) (p : UploadProgress) :
    ∀ q ∈ (processFile env fi p).ptrace,
      q.total_files = p.total_files ∧
      q.completed_files + q.failed_files ≤ p.completed_files + p.failed_files + 1 := by
  intro q hq
  cases h : fileAttempt env <;> simp [processFile, h] at hq
  · rcases hq with rfl | rfl | rfl <;> simp <;> omega
  · rcases hq with rfl | rfl <;> simp <;> omega

lemma processFile_strace (env : FileEnv) (fi : FileInfo) (p : UploadProgress) :
    (processFile env fi p).strace
      = [fi.status, "uploading", if fileSucceeds env then "completed" else "error"] := by
  cases h : fileAttempt env <;> simp [processFile, fileSucceeds, h]

lemma uploadFilesGo_files (pairs : List (FileInfo × FileEnv)) :
    ∀ p : UploadProgress,
      (uploadFilesGo pairs p).files = pairs.map fun q => fileOutcome q.2 q.1 := by
  induction pairs with
  | nil => intro p; rfl
  | cons head rest ih =>
    intro p
    obtain ⟨fi, env⟩ := head
    simp [uploadFilesGo, processFile_file, ih]

lemma uploadFilesGo_final (pairs : List (FileInfo × FileEnv)) :
    ∀ p : UploadProgress,
      (uploadFilesGo pairs p).final.total_files = p.total_files ∧
      (uploadFilesGo pairs p).final.completed_files
        = p.completed_files + pairs.countP (fun q => fileSucceeds q.2) ∧
      (uploadFilesGo pairs p).final.failed_files
        = p.failed_files + pairs.countP (fun q => ! fileSucceeds q.2) := by
  induction pairs with
  | nil => intro p; simp [uploadFilesGo]
  | cons head rest ih =>
    intro p
    obtain ⟨fi, env⟩ := head
    have hc := processFile_counts env fi p
    have ht := processFile_total env fi p
    have h := ih (processFile env fi p).prog
    refine ⟨?_, ?_, ?_⟩
    · rw [show (uploadFilesGo ((fi, env) :: rest) p).final
          = (uploadFilesGo rest (processFile env fi p).prog).final from rfl, h.1, ht]
    · rw [show (uploadFilesGo ((fi, env) :: rest) p).final
          = (uploadFilesGo rest (processFile env fi p).prog).final from rfl,
        h.2.1, hc.1, List.countP_cons]
      cases hs : fileSucceeds env <;> simp [hs] <;> omega
    · rw [show (uploadFilesGo ((fi, env) :: rest) p).final
          = (uploadFilesGo rest (processFile env fi p).prog).final from rfl,
        h.2.2, hc.2, List.countP_cons]
      cases hs : fileSucceeds env <;> simp [hs] <;> omega

lemma uploadFilesGo_snaps (pairs : List (FileInfo × FileEnv)) :
    ∀ p : UploadProgress,
      (uploadFilesGo pairs p).snaps.length = pairs.length + 1 ∧
      (∀ i, i ≤ pairs.length →
        ((uploadFilesGo pairs p).snaps.getD i default).completed_files
          + ((uploadFilesGo pairs p).snaps.getD i default).failed_files
          = p.completed_files + p.failed_files + i) ∧
      ((uploadFilesGo pairs p).snaps.getD pairs.length default).current_file = "" := by
  induction pairs with
  | nil =>
    intro p
    refine ⟨rfl, ?_, rfl⟩
    intro i hi
    have h0 : i = 0 := by simp at hi; omega
    subst h0
    rfl
  | cons head rest ih =>
    intro p
    obtain ⟨fi, env⟩ := head
    have h := ih (processFile env fi p).prog
    have hsum := processFile_sum env fi p
    have hsnaps : (uploadFilesGo ((fi, env) :: rest) p).snaps
        = p :: (uploadFilesGo rest (processFile env fi p).prog).snaps := rfl
    refine ⟨?_, ?_, ?_⟩
    · rw [hsnaps, List.length_cons, h.1, List.length_cons]
    · intro i hi
      match i with
      | 0 => simp [hsnaps]
      | Nat.succ i2 =>
        rw [hsnaps, List.getD_cons_succ, h.2.1 i2 (by simpa using hi)]
        omega
    · rw [hsnaps, List.length_cons, List.getD_cons_succ]
      exact h.2.2

lemma uploadFilesGo_inv (pairs : List (FileInfo × FileEnv)) :
    ∀ p : UploadProgress,
      p.completed_files + p.failed_files + pairs.length ≤ p.total_files →
      (∀ q ∈ (uploadFilesGo pairs p).ptrace,
        q.completed_files + q.failed_files ≤ q.total_files) ∧
      (∀ q ∈ (uploadFilesGo pairs p).snaps,
        q.completed_files + q.failed_files ≤ q.total_files) := by
  induction pairs with
  | nil =>
    intro p hp
    constructor <;>
      · intro q hq
        simp [uploadFilesGo] at hq
        subst hq
        simpa using hp
  | cons head rest ih =>
    intro p hp
    obtain ⟨fi, env⟩ := head
    simp only [List.length_cons] at hp
    have ht := processFile_total env fi p
    have hsum := processFile_sum env fi p
    have hrest := ih (processFile env fi p).prog
      (by rw [ht, hsum]; omega)
    have hptr : (uploadFilesGo ((fi, env) :: rest) p).ptrace
        = (p :: (processFile env fi p).ptrace)
            ++ (uploadFilesGo rest (processFile env fi p).prog).ptrace := rfl
    have hsnaps : (uploadFilesGo ((fi, env) :: rest) p).snaps
        = p :: (uploadFilesGo rest (processFile env fi p).prog).snaps := rfl
    constructor
    · intro q hq
      rw [hptr] at hq
      rcases List.mem_append.1 hq with hq1 | hq2
      · rcases List.mem_cons.1 hq1 with rfl | hq3
        · omega
        · have hb := processFile_ptrace env fi p q hq3
          omega
      · exact hrest.1 q hq2
    · intro q hq
      rw [hsnaps] at hq
      rcases List.mem_cons.1 hq with rfl | hq2
      · omega
      · exact hrest.2 q hq2

lemma uploadFilesGo_straces (pairs : List (FileInfo × FileEnv)) :
    ∀ p : UploadProgress, (∀ q ∈ pairs, q.1.status = "pending") →
      ∀ tr ∈ (uploadFilesGo pairs p).straces, List.Chain' statusAdvance tr := by
  induction pairs with
  | nil => intro p _ tr htr; simp [uploadFilesGo] at htr
  | cons head rest ih =>
    intro p hpend tr htr
    obtain ⟨fi, env⟩ := head
    have hstr : (uploadFilesGo ((fi, env) :: rest) p).straces
        = (processFile env fi p).strace
            :: (uploadFilesGo rest (processFile env fi p).prog).straces := rfl
    rw [hstr] at htr
    rcases List.mem_cons.1 htr with rfl | htr2
    · rw [processFile_strace]
      have hfi : fi.status = "pending" := hpend (fi, env) (List.mem_cons_self _ _)
      rw [hfi]
      refine List.chain'_cons.2 ⟨Or.inl ⟨rfl, rfl⟩, List.chain'_cons.2 ⟨?_, List.chain'_singleton _⟩⟩
      cases hs : fileSucceeds env <;> simp [statusAdvance]
    · exact ih (processFile env fi p).prog
        (fun q hq => hpend q (List.mem_cons_of_mem _ hq)) tr htr2

lemma getD_map {α β : Type} [Inhabited α] [Inhabited β] (f : α → β) :
    ∀ (l : List α) (i : Nat), i < l.length →
      (l.map f).getD i default = f (l.getD i default) := by
  intro l
  induction l with
  | nil => intro i hi; simp at hi
  | cons a l2 ih =>
    intro i hi
    match i with
    | 0 => rfl
    | Nat.succ i2 =>
      rw [List.map_cons, List.getD_cons_succ, List.getD_cons_succ]
      exact ih i2 (by simpa using hi)

lemma countP_allTrue {α : Type} [Inhabited α] (P : α → Bool) :
    ∀ l : List α, (∀ i, i < l.length → P (l.getD i default) = true) →
      l.countP P = l.length := by
  intro l
  induction l with
  | nil => intro _; rfl
  | cons a l2 ih =>
    intro h
    have h0 : P a = true := h 0 (by simp)
    rw [List.countP_cons, h0, ih (fun i hi => h (i + 1) (by simpa using hi))]
    simp

lemma countP_allFalse {α : Type} [Inhabited α] (P : α → Bool) :
    ∀ l : List α, (∀ i, i < l.length → P (l.getD i default) = false) →
      l.countP P = 0 := by
  intro l
  induction l with
  | nil => intro _; rfl
  | cons a l2 ih =>
    intro h
    have h0 : P a = false := h 0 (by simp)
    rw [List.countP_cons, h0, ih (fun i hi => h (i + 1) (by simpa using hi))]
    simp

lemma countP_oneFalse {α : Type} [Inhabited α] (P : α → Bool) :
    ∀ (l : List α) (j : Nat), j < l.length →
      P (l.getD j default) = false →
      (∀ i, i < l.length → i ≠ j → P (l.getD i default) = true) →
      l.countP P = l.length - 1 ∧ l.countP (fun a => ! P a) = 1 := by
  intro l
  induction l with
  | nil => intro j hj; simp at hj
  | cons a l2 ih =>
    intro j hj hfa hrest
    match j with
    | 0 =>
      have ha : P a = false := hfa
      have hall : ∀ i, i < l2.length → P (l2.getD i default) = true := by
        intro i hi
        have := hrest (i + 1) (by simpa using hi) (by omega)
        rwa [List.getD_cons_succ] at this
      have h1 : l2.countP P = l2.length := countP_allTrue P l2 hall
      have h2 : l2.countP (fun x => ! P x) = 0 :=
        countP_allFalse (fun x => ! P x) l2
          (fun i hi => by simp only [hall i hi, Bool.not_true])
      rw [List.countP_cons, List.countP_cons, h1, h2, ha]
      simp
    | Nat.succ j2 =>
      have ha : P a = true := by
        have := hrest 0 (by simp) (by omega)
        simpa using this
      have hj2 : j2 < l2.length := by simpa using hj
      have hfa2 : P (l2.getD j2 default) = false := by
        rwa [List.getD_cons_succ] at hfa
      have hrest2 : ∀ i, i < l2.length → i ≠ j2 → P (l2.getD i default) = true := by
        intro i hi hij
        have := hrest (i + 1) (by simpa using hi) (by omega)
        rwa [List.getD_cons_succ] at this
      have h := ih j2 hj2 hfa2 hrest2
      rw [List.countP_cons, List.countP_cons, h.1, h.2, ha]
      have hlen : 1 ≤ l2.length := by omega
      constructor
      · simp
        omega
      · simp

lemma fileAttempt_oversize (env : FileEnv) (h : MAX_FILE_SIZE < env.statSize) :
    fileAttempt env = FileResult.failed sizeErrorMsg := by
  rw [fileAttempt, if_pos h]

lemma fileSucceeds_oversize (env : FileEnv) (h : MAX_FILE_SIZE < env.statSize) :
    fileSucceeds env = false := by
  rw [fileSucceeds, fileAttempt_oversize env h]

lemma upload_files_getD (pairs : List (FileInfo × FileEnv)) (i : Nat)
    (hi : i < pairs.length) :
    (upload_files pairs).files.getD i default
      = fileOutcome (pairs.getD i default).2 (pairs.getD i default).1 := by
  rw [upload_files, uploadFilesGo_files]
  exact getD_map _ pairs i hi

/-- C10: for every input list of files, the progress record returned by
`upload_files` has total_files equal to the number of files and
completed_files + failed_files equal to total_files exactly: each file
contributes to exactly one of the two counters, whatever its outcome. -/
theorem upload_counters_spec (pairs : List (FileInfo × FileEnv)) :
    (upload_files pairs).final.total_files = pairs.length ∧
    (upload_files pairs).final.completed_files
      + (upload_files pairs).final.failed_files = pairs.length := by
  have h := uploadFilesGo_final pairs ⟨pairs.length, 0, 0, "", 0, false⟩
  refine ⟨h.1, ?_⟩
  rw [upload_files, h.2.1, h.2.2]
  have hs := List.length_eq_countP_add_countP
    (fun q : FileInfo × FileEnv => fileSucceeds q.2) pairs
  simp at hs ⊢
  omega

/-- C3: in an upload batch in which exactly the file at position j exceeds
the MAX_FILE_SIZE ceiling and every other file uploads and indexes
successfully, `upload_files` marks file j with status "error" and the
(nonempty) size-ceiling error message, increments failed_files to exactly
1, processes the remaining files normally (completed_files = N - 1, each
with status "completed"), continuing the batch past file j rather than
aborting. -/
theorem upload_oversized_spec (pairs : List (FileInfo × FileEnv)) (j : Nat)
    (hj : j < pairs.length)
    (hover : MAX_FILE_SIZE < ((pairs.getD j default).2).statSize)
    (hrest : ∀ i, i < pairs.length → i ≠ j →
      fileSucceeds ((pairs.getD i default).2) = true) :
    ((upload_files pairs).files.getD j default).status = "error" ∧
    ((upload_files pairs).files.getD j default).error_msg = sizeErrorMsg ∧
    sizeErrorMsg ≠ "" ∧
    (upload_files pairs).final.failed_files = 1 ∧
    (upload_files pairs).final.completed_files = pairs.length - 1 ∧
    (∀ i, i < pairs.length → i ≠ j →
      ((upload_files pairs).files.getD i default).status = "completed") := by
  have hsj : fileSucceeds ((pairs.getD j default).2) = false :=
    fileSucceeds_oversize _ hover
  have hcount := countP_oneFalse (fun q : FileInfo × FileEnv => fileSucceeds q.2)
    pairs j hj hsj hrest
  have hfin := uploadFilesGo_final pairs ⟨pairs.length, 0, 0, "", 0, false⟩
  have hbool : (fun q : FileInfo × FileEnv => ! fileSucceeds q.2)
      = fun q : FileInfo × FileEnv => ! (fun q2 : FileInfo × FileEnv => fileSucceeds q2.2) q := rfl
  refine ⟨?_, ?_, by decide, ?_, ?_, ?_⟩
  · rw [upload_files_getD pairs j hj, fileOutcome_status, hsj]
    rfl
  · rw [upload_files_getD pairs j hj, fileOutcome,
      fileAttempt_oversize _ hover]
  · rw [upload_files, hfin.2.2, hbool, hcount.2]
  · rw [upload_files, hfin.2.1, hcount.1]
    simp
  · intro i hi hij
    rw [upload_files_getD pairs i hi, fileOutcome_status, hrest i hi hij]
    rfl

/-- Concrete C3 batch: a small file that fully succeeds followed by an
oversized file. -/
def fiOkC3 : FileInfo := ⟨"docs/ok.txt", [], 4, "pending", ""⟩

def fiBigC3 : FileInfo := ⟨"docs/big.bin", [], 204800, "pending", ""⟩

def envOkC3 : FileEnv := ⟨1024, Except.ok (), fun _ => "ACTIVE"⟩

def envBigC3 : FileEnv := ⟨MAX_FILE_SIZE + 1, Except.ok (), fun _ => "ACTIVE"⟩

def pairsC3 : List (FileInfo × FileEnv) := [(fiOkC3, envOkC3), (fiBigC3, envBigC3)]

theorem upload_oversized_witness :
    ((upload_files pairsC3).files.getD 1 default).status = "error" ∧
    ((upload_files pairsC3).files.getD 1 default).error_msg = sizeErrorMsg ∧
    (upload_files pairsC3).final.failed_files = 1 ∧
    (upload_files pairsC3).final.completed_files = 1 ∧
    ((upload_files pairsC3).files.getD 0 default).status = "completed" := by
  have h := upload_oversized_spec pairsC3 1 (by decide) (by decide) (by decide)
  exact ⟨h.1, h.2.1, h.2.2.2.1, h.2.2.2.2.1, h.2.2.2.2.2 0 (by decide) (by decide)⟩

/-- Concrete one-file batch whose single file is processed successfully. -/
def pairsC4 : List (FileInfo × FileEnv) := [(fiOkC3, envOkC3)]

/-- C4 counterexample: the claim states that the progress callback is
invoked once after each file has been processed, with that file's outcome
already reflected in the counters, plus once more at the end.  On this
one-file batch the code makes exactly two callback invocations, and the
second one is the final invocation with `current_file = ""`; so under the
claim the first invocation would have to observe the (successfully
processed) file already counted, completed_files + failed_files = 1.  In
fact the code invokes the callback at the top of the loop, before the file
is processed, and the first invocation observes
completed_files + failed_files = 0. -/
theorem upload_callback_cex :
    (upload_files pairsC4).snaps.length = 2 ∧
    ¬ (((upload_files pairsC4).snaps.getD 0 default).completed_files
        + ((upload_files pairsC4).snaps.getD 0 default).failed_files = 1) ∧
    ((upload_files pairsC4).snaps.getD 1 default).current_file = "" := by
  refine ⟨rfl, by decide, rfl⟩

/-- C4 (amended): for every upload batch with a progress callback supplied,
`upload_files` invokes the callback exactly len(files)+1 times: once at the
top of the loop for each file, before that file is processed — so the i-th
invocation (0-based) observes exactly the first i files accounted in the
counters — and once more at the end, after all files are processed, with
the progress record's current_file field set to the empty string. -/
theorem upload_callback_spec (pairs : List (FileInfo × FileEnv)) :
    (upload_files pairs).snaps.length = pairs.length + 1 ∧
    (∀ i, i ≤ pairs.length →
      ((upload_files pairs).snaps.getD i default).completed_files
        + ((upload_files pairs).snaps.getD i default).failed_files = i) ∧
    ((upload_files pairs).snaps.getD pairs.length default).current_file = "" := by
  have h := uploadFilesGo_snaps pairs ⟨pairs.length, 0, 0, "", 0, false⟩
  refine ⟨h.1, fun i hi => ?_, h.2.2⟩
  have h2 := h.2.1 i hi
  simpa using h2

theorem upload_callback_witness :
    (upload_files pairsC4).snaps.length = pairsC4.length + 1 ∧
    ((upload_files pairsC4).snaps.getD 1 default).completed_files
      + ((upload_files pairsC4).snaps.getD 1 default).failed_files = 1 ∧
    ((upload_files pairsC4).snaps.getD pairsC4.length default).current_file = "" := by
  have h := upload_callback_spec pairsC4
  exact ⟨h.1, h.2.1 1 (by decide), h.2.2⟩

lemma waitPoll_timeout (states : Nat → String) (fuel : Nat) :
    ∀ i, (∀ j, j < fuel → isActiveState (states (i + j)) = false) →
      waitPoll states fuel i = Except.error () := by
  induction fuel with
  | zero => intro i _; rfl
  | succ n ih =>
    intro i h
    have h0 := h 0 (Nat.succ_pos n)
    rw [Nat.add_zero] at h0
    simp only [waitPoll, h0, Bool.false_eq_true, if_false]
    exact ih (i + 1) (fun j hj => by
      have hj1 := h (j + 1) (by omega)
      rwa [show i + (j + 1) = i + 1 + j by omega] at hj1)

lemma fileSucceeds_of_wait_error (env : FileEnv)
    (hw : wait_for_indexing env.indexStates 300 = Except.error ()) :
    fileSucceeds env = false := by
  rw [fileSucceeds]
  cases hfa : fileAttempt env with
  | ok =>
    exfalso
    rw [fileAttempt] at hfa
    by_cases hsz : MAX_FILE_SIZE < env.statSize
    · rw [if_pos hsz] at hfa
      exact FileResult.noConfusion hfa
    · rw [if_neg hsz] at hfa
      cases hu : env.uploadResult with
      | error e => simp [hu] at hfa
      | ok u => simp [hu, hw] at hfa
  | failed msg => rfl

/-- C5: if the polled document state never becomes active ("STATE_ACTIVE"
or "ACTIVE") within the fixed 300-second timeout window (60 polls at
5-second intervals), `_wait_for_indexing` raises the timeout error; and in
`upload_files` a file whose indexing poll sees those states is marked with
status "error" (never "completed") and counted in failed_files, not
completed_files. -/
theorem indexing_timeout_spec (states : Nat → String)
    (h : ∀ i, i < 60 → isActiveState (states i) = false) :
    wait_for_indexing states 300 = Except.error () ∧
    (∀ (env : FileEnv) (fi : FileInfo) (p : UploadProgress),
      env.indexStates = states →
      (processFile env fi p).file.status = "error" ∧
      (processFile env fi p).prog.failed_files = p.failed_files + 1 ∧
      (processFile env fi p).prog.completed_files = p.completed_files) ∧
    (∀ (pairs : List (FileInfo × FileEnv)) (j : Nat), j < pairs.length →
      ((pairs.getD j default).2).indexStates = states →
      ((upload_files pairs).files.getD j default).status = "error") := by
  have hw : wait_for_indexing states 300 = Except.error () := by
    rw [wait_for_indexing]
    exact waitPoll_timeout states 60 0 (fun j hj => by simpa using h j hj)
  have hfs : ∀ env : FileEnv, env.indexStates = states → fileSucceeds env = false := by
    intro env he
    exact fileSucceeds_of_wait_error env (by rw [he, hw])
  refine ⟨hw, ?_, ?_⟩
  · intro env fi p he
    have hc := processFile_counts env fi p
    have hs := hfs env he
    refine ⟨?_, ?_, ?_⟩
    · rw [processFile_file, fileOutcome_status, hs]
      rfl
    · rw [hc.2, hs]
      rfl
    · rw [hc.1, hs]
      rfl
  · intro pairs j hj he
    rw [upload_files_getD pairs j hj, fileOutcome_status, hfs _ he]
    rfl

/-- Concrete C5 run: every poll of the document reports a pending state. -/
def statesC5 : Nat → String := fun _ => "STATE_PENDING"

def envC5 : FileEnv := ⟨2048, Except.ok (), statesC5⟩

def fiC5 : FileInfo := ⟨"slow.pdf", [], 2, "pending", ""⟩

def progC5 : UploadProgress := ⟨1, 0, 0, "", 0, false⟩

def pairsC5 : List (FileInfo × FileEnv) := [(fiC5, envC5)]

theorem indexing_timeout_witness :
    wait_for_indexing statesC5 300 = Except.error () ∧
    (processFile envC5 fiC5 progC5).file.status = "error" ∧
    (processFile envC5 fiC5 progC5).prog.failed_files = 1 ∧
    (processFile envC5 fiC5 progC5).prog.completed_files = 0 ∧
    ((upload_files pairsC5).files.getD 0 default).status = "error" := by
  have h := indexing_timeout_spec statesC5 (by decide)
  obtain ⟨h1, h2, h3⟩ := h
  obtain ⟨ha, hb, hc⟩ := h2 envC5 fiC5 progC5 rfl
  exact ⟨h1, ha, hb, hc, h3 pairsC5 0 (by decide) rfl⟩

/-- C9: in every run of `upload_files` on files that start pending, each
file's status history only advances along
pending → uploading → (completed | error), never backward, and every
progress state produced during the run — including every state the
callback observes — satisfies completed_files + failed_files ≤ total_files. -/
theorem upload_invariants_spec (pairs : List (FileInfo × FileEnv))
    (hpend : ∀ q ∈ pairs, q.1.status = "pending") :
    (∀ tr ∈ (upload_files pairs).straces, List.Chain' statusAdvance tr) ∧
    (∀ q ∈ (upload_files pairs).ptrace,
      q.completed_files + q.failed_files ≤ q.total_files) ∧
    (∀ q ∈ (upload_files pairs).snaps,
      q.completed_files + q.failed_files ≤ q.total_files) := by
  have hinv := uploadFilesGo_inv pairs ⟨pairs.length, 0, 0, "", 0, false⟩ (by simp)
  exact ⟨uploadFilesGo_straces pairs _ hpend, hinv.1, hinv.2⟩

theorem upload_invariants_witness :
    List.Chain' statusAdvance ((upload_files pairsC4).straces.getD 0 default) ∧
    ((upload_files pairsC4).ptrace.getD 0 default).completed_files
      + ((upload_files pairsC4).ptrace.getD 0 default).failed_files
      ≤ ((upload_files pairsC4).ptrace.getD 0 default).total_files := by
  have h := upload_invariants_spec pairsC4 (by decide)
  exact ⟨h.1 _ (by decide), h.2.1 _ (by decide)⟩

/-- C8: for every UploadProgress record with completed_files ≤ total_files,
the percent property equals 0 when total_files is 0 and equals
(completed_files / total_files) × 100 otherwise. -/
theorem percent_spec (p : UploadProgress) (h : p.completed_files ≤ p.total_files) :
    (p.total_files = 0 → p.percent = 0) ∧
    (p.total_files ≠ 0 →
      p.percent = ((p.completed_files : ℚ) / (p.total_files : ℚ)) * 100) := by
  constructor
  · intro h0
    rw [UploadProgress.percent, if_pos h0]
  · intro h0
    rw [UploadProgress.percent, if_neg h0]

/-- Concrete C8 record: 1 of 2 files completed. -/
def progC8 : UploadProgress := ⟨2, 1, 0, "", 0, false⟩

theorem percent_witness : progC8.percent = 50 := by
  have h := (percent_spec progC8 (by decide)).2 (by decide)
  rw [h]
  norm_num [progC8]

/-- One grounding chunk of a response candidate's grounding metadata:
its `web` attribute (None when absent) and its `str(chunk)` rendering. -/
structure GroundingChunk where
  web : Option String
  asString : String
deriving DecidableEq, Inhabited

/-- Grounding metadata of a response candidate; `grounding_chunks` is
`none` when the attribute is absent. -/
structure GroundingMetadata where
  grounding_chunks : Option (List GroundingChunk)
deriving DecidableEq, Inhabited

/-- A response candidate; `grounding_metadata` is `none` when the
attribute is absent. -/
structure Candidate where
  grounding_metadata : Option GroundingMetadata
deriving DecidableEq, Inhabited

/-- Shape of a vendor `generate_content` response as probed by
`query_store`: optional `text`, its `str(response)` rendering, optional
`usage_metadata.total_token_count`, and optional `candidates` (each
optional field is `none` when `hasattr` fails). -/
structure Response where
  text : Option String
  asString : String
  usage_total_tokens : Option Nat
  candidates : Option (List Candidate)
deriving DecidableEq, Inhabited

/-- A citation record appended by `query_store`: the chunk's `web`
attribute (`getattr(chunk, 'web', None)`) and `str(chunk)[:200]`. -/
structure Citation where
  source : Option String
  text : String
deriving DecidableEq, Inhabited

/-- filestore_manager.py lines 58-64: the `QueryResult` dataclass. -/
structure QueryResult where
  text : String
  citations : List Citation
  grounding_metadata : Option GroundingMetadata
  tokens_used : Nat
deriving DecidableEq, Inhabited

/-- Citation-extraction step of the `_query` body (filestore_manager.py
lines 346-357) for one candidate: if the candidate has grounding metadata
it is stored on the result, and if that metadata has grounding chunks a
citation is appended for each chunk. -/
def extractFromCandidate (acc : QueryResult) (c : Candidate) : QueryResult :=
  match c.grounding_metadata with
  | none => acc
  | some gm =>
    let acc1 := { acc with grounding_metadata := some gm }
    match gm.grounding_chunks with
    | none => acc1
    | some chunks =>
      { acc1 with citations :=
          acc1.citations ++ chunks.map fun ch => ⟨ch.web, ch.asString.take 200⟩ }

/-- The `_query` body of `query_store` (filestore_manager.py lines
341-359) applied to a successfully obtained response: build the base
QueryResult from `text` (falling back to `str(response)`) and the usage
metadata, then walk the candidates (when the attribute exists and the
list is non-empty) extracting citations. -/
def queryBody (r : Response) : QueryResult :=
  let result : QueryResult :=
    { text := r.text.getD r.asString, citations := [],
      grounding_metadata := none,
      tokens_used := r.usage_total_tokens.getD 0 }
  match r.candidates with
  | none => result
  | some cands =>
    if cands.isEmpty then result
    else cands.foldl extractFromCandidate result

/-- `FileStoreManager.query_store`: `_query` run under `_retry_operation`;
`gen i` is the outcome of the i-th `generate_content` call. -/
def query_store (gen : Nat → Except String Response) : Except String QueryResult :=
  (retry_operation fun i => Except.map queryBody (gen i)).result

/-- A candidate lacking grounding metadata, or whose grounding metadata
lacks the grounding chunks attribute. -/
def candNoChunks (c : Candidate) : Bool :=
  match c.grounding_metadata with
  | none => true
  | some gm => gm.grounding_chunks.isNone

/-- Grounding metadata is absent from the response: no candidates
attribute, or every candidate lacking grounding metadata or lacking
grounding chunks. -/
def noGroundingChunks (r : Response) : Bool :=
  match r.candidates with
  | none => true
  | some cands => cands.all candNoChunks

lemma extractFromCandidate_citations (acc : QueryResult) (c : Candidate)
    (hc : candNoChunks c = true) :
    (extractFromCandidate acc c).citations = acc.citations := by
  rw [candNoChunks] at hc
  cases hgm : c.grounding_metadata with
  | none => simp [extractFromCandidate, hgm]
  | some gm =>
    rw [hgm] at hc
    have hch : gm.grounding_chunks = none := by
      simpa [Option.isNone_iff_eq_none] using hc
    simp [extractFromCandidate, hgm, hch]

lemma foldl_extract_citations (cands : List Candidate) :
    ∀ acc : QueryResult,
      (∀ c ∈ cands, candNoChunks c = true) →
      (cands.foldl extractFromCandidate acc).citations = acc.citations := by
  induction cands with
  | nil => intro acc _; rfl
  | cons c rest ih =>
    intro acc hall
    rw [List.foldl_cons,
      ih (extractFromCandidate acc c) (fun d hd => hall d (List.mem_cons_of_mem _ hd)),
      extractFromCandidate_citations acc c (hall c (List.mem_cons_self _ _))]

/-- C6: for every vendor response in which grounding metadata is absent
(no candidates, or candidates without grounding metadata or without
grounding chunks), `query_store` returns normally with a QueryResult whose
citations list is empty; citation extraction raises no error (the
extraction is a total function in this model). -/
theorem query_no_grounding_spec (gen : Nat → Except String Response) (r : Response)
    (h0 : gen 0 = Except.ok r) (hng : noGroundingChunks r = true) :
    query_store gen = Except.ok (queryBody r) ∧ (queryBody r).citations = [] := by
  constructor
  · rw [query_store, retry_operation,
      retryAux_ok (fun i => Except.map queryBody (gen i)) 0 (queryBody r)
        (by simp [h0, Except.map])]
  · rw [noGroundingChunks] at hng
    cases hc : r.candidates with
    | none => simp [queryBody, hc]
    | some cands =>
      rw [hc] at hng
      have hall : ∀ c ∈ cands, candNoChunks c = true := by
        intro c hcm
        simp only [List.all_eq_true] at hng
        exact hng c hcm
      simp only [queryBody, hc]
      by_cases he : cands.isEmpty = true
      · simp [he]
      · rw [if_neg he, foldl_extract_citations cands _ hall]

/-- Concrete C6 run: a response with one candidate whose grounding
metadata has no grounding chunks, obtained on the first call. -/
def respC6 : Response :=
  ⟨some "answer", "answer", some 42, some [⟨some ⟨none⟩⟩]⟩

def genC6 : Nat → Except String Response := fun _ => Except.ok respC6

theorem query_no_grounding_witness :
    query_store genC6 = Except.ok (queryBody respC6) ∧
    (queryBody respC6).citations = [] :=
  query_no_grounding_spec genC6 respC6 rfl rfl
